import Mathlib

/-!
Shallow embedding of `drivers/perf/arm_pmu.c` (the ARM performance-counter
core driver) and verification of its natural-language specification.

Machine integers are modelled as `Nat` (unsigned) and `Int` (signed) with
explicit reduction modulo `2 ^ 64` / `2 ^ 32` where the C code relies on
fixed-width wraparound.  The per-CPU hardware state is modelled as a list of
slots; externally supplied capability operations (`get_event_idx`,
`read_counter`, `write_counter`, bank start/stop/reset hooks, interrupt
primitives) are modelled as parameters or as entries in an explicit trace.
-/

/-! ## Error numbers (the driver returns them negated, as in C) -/

def ENOENT : Int := 2
def EINVAL : Int := 22
def EOPNOTSUPP : Int := 95

/-! ## perf constants (values from the kernel headers used by arm_pmu.c) -/

def PERF_HES_STOPPED : Nat := 1
def PERF_HES_UPTODATE : Nat := 2

def PERF_EF_START : Nat := 1
def PERF_EF_RELOAD : Nat := 2
def PERF_EF_UPDATE : Nat := 4

def PERF_EVENT_STATE_OFF : Int := -1
def PERF_EVENT_STATE_ACTIVE : Int := 1

/-! ## Fixed-width arithmetic helpers -/

/-- `(u64)x` for a signed value: reduction of an integer into `[0, 2^64)`. -/
def toU64 (x : Int) : Nat := (x % ((2 : Int) ^ 64)).toNat

/-- Signed 64-bit wraparound: the representative of `x` in `[-2^63, 2^63)`. -/
def wrap64 (x : Int) : Int := (x + 2 ^ 63) % 2 ^ 64 - 2 ^ 63

/-- Unsigned 64-bit subtraction `a - b` (wraparound), operands reduced. -/
def sub64 (a b : Nat) : Nat := (a % 2 ^ 64 + (2 ^ 64 - b % 2 ^ 64)) % 2 ^ 64

/-- `(int)n` for an unsigned value already below `2 ^ 32`. -/
def toS32 (n : Nat) : Int :=
  if n % 2 ^ 32 < 2 ^ 31 then ((n % 2 ^ 32 : Nat) : Int)
  else ((n % 2 ^ 32 : Nat) : Int) - 2 ^ 32

/-! ## Data model: `struct hw_perf_event` / `struct perf_event` -/

/-- The fields of `struct hw_perf_event` that `arm_pmu.c` touches.
`prev_count` is a `local64_t` used as an unsigned 64-bit value;
`period_left`, `sample_period`, `last_period` are signed 64-bit. -/
structure HwPerfEvent where
  idx : Int
  config_base : Nat
  state : Nat
  prev_count : Nat
  period_left : Int
  sample_period : Int
  last_period : Int
deriving DecidableEq, Repr

/-- The fields of `struct perf_event` that `arm_pmu.c` touches: the
hardware bookkeeping, the running total (`event->count`, a `local64_t`)
and the scheduler state (`event->state`). -/
structure PerfEvent where
  hw : HwPerfEvent
  count : Nat
  state : Int
deriving DecidableEq, Repr

/-- A subscription together with the hardware it owns while scheduled:
`hwval` is the raw value currently held by the slot's counter register
(what `armpmu->read_counter` returns), `enabled` is whether the slot is
enabled (`armpmu->enable` / `armpmu->disable`). -/
structure Counter where
  event : PerfEvent
  hwval : Nat
  enabled : Bool
deriving DecidableEq, Repr

/-! ## PeriodAccountant: `armpmu_event_update` -/

/-- The effect of one successful pass of `armpmu_event_update`'s body:
the compare-and-swap has replaced `prev_count` (observed as `prev`) with
`newRaw`; then `delta = (new_raw - prev_raw) & max_period` is added to
the running total and subtracted from `period_left`. -/
def perfEventApplyDelta (mp prev newRaw : Nat) (e : PerfEvent) : PerfEvent :=
  let delta := sub64 newRaw prev &&& mp
  { e with
      hw := { e.hw with
        prev_count := newRaw,
        period_left := wrap64 (e.hw.period_left - (delta : Int)) },
      count := (e.count + delta) % 2 ^ 64 }

/-- The `again:` compare-and-retry loop of `armpmu_event_update`.
Interference from a concurrent context (the interrupt handler racing with
a normal-context read) is modelled by `rounds`: in each round the loop
reads `prev_count`, reads the raw counter (first component), and then the
concurrent context writes `prev_count` (second component) before the
`local64_cmpxchg`.  The cmpxchg succeeds exactly when the value it finds
equals the one read; otherwise the loop retries.  After the rounds are
exhausted no further interference occurs and the final read (`finalRaw`)
goes through. -/
def armpmu_event_update_go (mp finalRaw : Nat) :
    List (Nat × Nat) → PerfEvent → Nat × PerfEvent
  | [], e => (finalRaw, perfEventApplyDelta mp e.hw.prev_count finalRaw e)
  | (raw, w) :: rest, e =>
      let prev := e.hw.prev_count
      let e1 : PerfEvent := { e with hw := { e.hw with prev_count := w } }
      if w = prev then (raw, perfEventApplyDelta mp prev raw e1)
      else armpmu_event_update_go mp finalRaw rest e1

/-- `armpmu_event_update` in the absence of concurrent interference: the
raw value read is the slot's current hardware value and the cmpxchg
succeeds on the first pass. -/
def armpmu_event_update (mp : Nat) (c : Counter) : Nat × Counter :=
  let r := armpmu_event_update_go mp c.hwval [] c.event
  (r.1, { c with event := r.2 })

/-- Observation function for the retry loop: the pair
(`prev_count` read, raw value read) of the attempt whose cmpxchg
succeeds, given the interference schedule. -/
def updObserved (finalRaw : Nat) : List (Nat × Nat) → Nat → Nat × Nat
  | [], p0 => (p0, finalRaw)
  | (raw, w) :: rest, p0 => if w = p0 then (p0, raw) else updObserved finalRaw rest w

/-! ## PeriodAccountant: `armpmu_event_set_period` -/

/-- `armpmu_event_set_period`: reconcile `period_left`, clamp the value to
be programmed to at most `max_period >> 1` (the comparison is performed in
unsigned 64-bit arithmetic, as in the C source where `left` is converted
to `u64` when compared against `armpmu->max_period >> 1`), record
`prev_count = (u64)-left` and program the counter with
`(u64)(-left) & 0xffffffff`.  Returns `true` iff an overflow was flagged
(`ret` in the source). -/
def armpmu_event_set_period (mp : Nat) (c : Counter) : Bool × Counter :=
  let left0 := c.event.hw.period_left
  let period := c.event.hw.sample_period
  let b1 := left0 ≤ -period
  let left1 := if b1 then period else left0
  let b2 := left1 ≤ 0
  let left2 := if b2 then wrap64 (left1 + period) else left1
  let left3 := if mp >>> 1 < toU64 left2 then ((mp >>> 1 : Nat) : Int) else left2
  let prog := toU64 (-left3)
  (b1 ∨ b2,
   { c with
       event := { c.event with
         hw := { c.event.hw with
           period_left := left2,
           last_period := if b1 ∨ b2 then period else c.event.hw.last_period,
           prev_count := prog } },
       hwval := prog &&& 0xffffffff })

/-! ## SubscriptionLifecycle: start / stop / add -/

/-- `armpmu_start`: clear the transient-state flags, always re-program the
period (`armpmu_event_set_period`), then enable the slot.  The `flags`
argument (`PERF_EF_RELOAD`) only feeds a debug warning in the source and
does not influence behaviour. -/
def armpmu_start (mp : Nat) (flags : Nat) (c : Counter) : Counter :=
  let c1 : Counter := { c with event := { c.event with hw := { c.event.hw with state := 0 } } }
  let c2 := (armpmu_event_set_period mp c1).2
  { c2 with enabled := true }

/-- `armpmu_stop`: if the subscription is not already stopped, disable the
slot, force a final `armpmu_event_update`, and set
`PERF_HES_STOPPED | PERF_HES_UPTODATE`; otherwise do nothing
(`PERF_EF_UPDATE` is deliberately ignored by the source). -/
def armpmu_stop (mp : Nat) (flags : Nat) (c : Counter) : Counter :=
  if c.event.hw.state &&& PERF_HES_STOPPED ≠ 0 then c
  else
    let c1 : Counter := { c with enabled := false }
    let c2 := (armpmu_event_update mp c1).2
    { c2 with event := { c2.event with hw := { c2.event.hw with
        state := c2.event.hw.state ||| (PERF_HES_STOPPED ||| PERF_HES_UPTODATE) } } }

/-- The per-core slot table (`pmu_hw_events`): for each slot index its
`used_mask` bit and the subscription stored in `events[idx]`. -/
abbrev SlotTable : Type := List (Bool × Option Counter)

/-- `bitmap_weight(hw_events->used_mask, armpmu->num_events)`. -/
def bitmapWeight (st : SlotTable) : Nat := st.countP (fun s => s.1)

/-- `armpmu_add`.  `supported` is `cpumask_test_cpu(smp_processor_id(),
&armpmu->supported_cpus)`; `choose` is the externally supplied
`armpmu->get_event_idx` strategy, modelled as a pure slot choice whose
used-bit marking (a `test_and_set_bit` in concrete strategies) is applied
at the call site when it succeeds.  Returns the C status plus the
post-state of the slot table and of the event. -/
def armpmu_add (mp : Nat) (supported : Bool)
    (choose : SlotTable → Counter → Int) (flags : Nat)
    (st : SlotTable) (c : Counter) : Int × SlotTable × Counter :=
  if supported = false then (-ENOENT, st, c)
  else
    let idx := choose st c
    if idx < 0 then (idx, st, c)
    else
      let c1 : Counter := { c with event := { c.event with hw := { c.event.hw with
          idx := idx,
          state := PERF_HES_STOPPED ||| PERF_HES_UPTODATE } } }
      let c2 := if flags &&& PERF_EF_START ≠ 0 then armpmu_start mp PERF_EF_RELOAD c1 else c1
      (0, st.set idx.toNat (true, some c2), c2)

/-! ## PowerAndHotplugCoordinator: `cpu_pm_pmu_setup` / `cpu_pm_pmu_common` -/

/-- Capability hooks invoked on the bank, recorded as a trace.  The bank
start/stop hooks and the reset hook act on hardware global to the bank;
every armed counter is re-programmed (`armpmu_event_set_period`) before it
is next used, so their effect on individual slots is not modelled beyond
the trace. -/
inductive PmHook where
  | bankStop
  | bankStart
  | reset
  | stopEv (i : Nat)
  | startEv (i : Nat)
deriving DecidableEq, Repr

/-- The CPU-PM notifier commands reaching `cpu_pm_pmu_common`. -/
inductive PmCmd where
  | pmEnter
  | pmExit
  | pmEnterFailed
  | pmOther
deriving DecidableEq, Repr

/-- The per-slot action of `cpu_pm_pmu_setup`: unused slots, empty slots
and subscriptions whose scheduler state is not `PERF_EVENT_STATE_ACTIVE`
are skipped; active ones are stopped+updated on low-power entry and
restarted (re-armed) on exit / failed entry. -/
def pmSlotStep (mp : Nat) (cmd : PmCmd) (s : Bool × Option Counter) :
    Bool × Option Counter :=
  match s with
  | (true, some c) =>
      if c.event.state = PERF_EVENT_STATE_ACTIVE then
        match cmd with
        | .pmEnter => (true, some (armpmu_stop mp PERF_EF_UPDATE c))
        | .pmExit => (true, some (armpmu_start mp PERF_EF_RELOAD c))
        | .pmEnterFailed => (true, some (armpmu_start mp PERF_EF_RELOAD c))
        | .pmOther => s
      else s
  | _ => s

/-- The indices (starting at `i`) of slots that are in use, occupied, and
whose subscription is in scheduler state ACTIVE — the slots
`cpu_pm_pmu_setup` acts on. -/
def activeIdxs : Nat → SlotTable → List Nat
  | _, [] => []
  | i, s :: rest =>
      let tail := activeIdxs (i + 1) rest
      match s with
      | (true, some c) =>
          if c.event.state = PERF_EVENT_STATE_ACTIVE then i :: tail else tail
      | _ => tail

/-- The per-event hook recorded by `cpu_pm_pmu_setup` for one slot. -/
def pmHookFor (cmd : PmCmd) (i : Nat) : PmHook :=
  match cmd with
  | .pmEnter => .stopEv i
  | _ => .startEv i

/-- `cpu_pm_pmu_setup`: walk every slot index, transforming active slots
according to the command and recording the per-event hooks in order. -/
def cpu_pm_pmu_setup (mp : Nat) (cmd : PmCmd) :
    Nat → SlotTable → SlotTable × List PmHook
  | _, [] => ([], [])
  | i, s :: rest =>
      let tail := cpu_pm_pmu_setup mp cmd (i + 1) rest
      match s with
      | (true, some c) =>
          if c.event.state = PERF_EVENT_STATE_ACTIVE then
            (pmSlotStep mp cmd (true, some c) :: tail.1, pmHookFor cmd i :: tail.2)
          else (s :: tail.1, tail.2)
      | _ => (s :: tail.1, tail.2)

/-- Notifier return values (`NOTIFY_DONE` / `NOTIFY_OK`). -/
inductive NotifyRet where
  | done
  | ok
deriving DecidableEq, Repr

/-- `cpu_pm_pmu_common`: ignore unsupported cores; on low-power exit run
the bank reset hook first (if present); if no slot is in use do nothing
more; otherwise on entry call the bank-wide stop hook and then stop every
active subscription, and on exit (or failed entry) re-arm every active
subscription and then call the bank-wide start hook. -/
def cpu_pm_pmu_common (mp : Nat) (supported hasReset : Bool) (cmd : PmCmd)
    (st : SlotTable) : SlotTable × List PmHook × NotifyRet :=
  if supported = false then (st, [], .done)
  else
    let tr0 : List PmHook := if cmd = .pmExit ∧ hasReset = true then [.reset] else []
    if bitmapWeight st = 0 then (st, tr0, .ok)
    else
      match cmd with
      | .pmEnter =>
          let r := cpu_pm_pmu_setup mp cmd 0 st
          (r.1, tr0 ++ PmHook.bankStop :: r.2, .ok)
      | .pmExit =>
          let r := cpu_pm_pmu_setup mp cmd 0 st
          (r.1, tr0 ++ r.2 ++ [PmHook.bankStart], .ok)
      | .pmEnterFailed =>
          let r := cpu_pm_pmu_setup mp cmd 0 st
          (r.1, tr0 ++ r.2 ++ [PmHook.bankStart], .ok)
      | .pmOther => (st, tr0, .done)

/-! ## GroupValidator: `validate_event` / `validate_group` -/

/-- The facets of a prospective group member that `validate_event`
inspects: whether it is a pure software event, whether `event->pmu` is the
bank under validation, its scheduler state and its
`attr.enable_on_exec` flag. -/
structure GEvent where
  software : Bool
  samePmu : Bool
  state : Int
  enable_on_exec : Bool
deriving DecidableEq, Repr

/-- A slot-selection strategy (`armpmu->get_event_idx`) over a scratch
used-mask, modelled as a pure slot choice; the used-bit marking performed
by concrete strategies (`test_and_set_bit`) is applied by the caller on
success. -/
def GStrategy : Type := Finset Nat → GEvent → Option Nat

/-- `validate_event` over the fake (scratch) slot map. -/
def validate_event (strat : GStrategy) (m : Finset Nat) (e : GEvent) :
    Bool × Finset Nat :=
  if e.software = true then (true, m)
  else if e.samePmu = false then (false, m)
  else if e.state < PERF_EVENT_STATE_OFF then (true, m)
  else if e.state = PERF_EVENT_STATE_OFF ∧ e.enable_on_exec = false then (true, m)
  else
    match strat m e with
    | some i => (true, insert i m)
    | none => (false, m)

/-- Sequential validation of a list of members over the shared scratch
map, failing fast. -/
def validate_list (strat : GStrategy) :
    List GEvent → Finset Nat → Bool × Finset Nat
  | [], m => (true, m)
  | e :: rest, m =>
      let r := validate_event strat m e
      if r.1 then validate_list strat rest r.2 else (false, r.2)

/-- `validate_group`: validate the leader, every sibling, and the new
candidate against a zero-initialised scratch map; `-EINVAL` if any member
fails.  No real per-core state is consulted or modified. -/
def validate_group (strat : GStrategy) (leader : GEvent)
    (siblings : List GEvent) (event : GEvent) : Int :=
  if (validate_list strat (leader :: (siblings ++ [event])) ∅).1 then 0 else -EINVAL

/-- The member-validation rule as worded by the specification claim
(for comparison with the source's `validate_event`): software-only
members always validate; members of a different bank fail; members of
this bank that are disabled (`PERF_EVENT_STATE_OFF`) without
`enable_on_exec` always validate; every other member validates only if
the strategy finds a free scratch slot. -/
def validate_event_claimed (strat : GStrategy) (m : Finset Nat) (e : GEvent) :
    Bool × Finset Nat :=
  if e.software = true then (true, m)
  else if e.samePmu = false then (false, m)
  else if e.state = PERF_EVENT_STATE_OFF ∧ e.enable_on_exec = false then (true, m)
  else
    match strat m e with
    | some i => (true, insert i m)
    | none => (false, m)

/-- Sequential validation under the claim's member rule. -/
def validate_list_claimed (strat : GStrategy) :
    List GEvent → Finset Nat → Bool × Finset Nat
  | [], m => (true, m)
  | e :: rest, m =>
      let r := validate_event_claimed strat m e
      if r.1 then validate_list_claimed strat rest r.2 else (false, r.2)

/-- Group validation under the claim's member rule. -/
def validate_group_claimed (strat : GStrategy) (leader : GEvent)
    (siblings : List GEvent) (event : GEvent) : Int :=
  if (validate_list_claimed strat (leader :: (siblings ++ [event])) ∅).1 then 0
  else -EINVAL

/-- A member that competes for a scratch slot under the source rules:
hardware-backed, on this bank, and not in an always-validating scheduler
state. -/
def needsScratchSlot (e : GEvent) : Prop :=
  e.software = false ∧ e.samePmu = true ∧
    PERF_EVENT_STATE_OFF ≤ e.state ∧
    (e.state = PERF_EVENT_STATE_OFF → e.enable_on_exec = true)

/-! ## EventMapper: `armpmu_map_cache_event` / `armpmu_map_raw_event` -/

def PERF_COUNT_HW_MAX : Nat := 10
def PERF_COUNT_HW_CACHE_MAX : Nat := 7
def PERF_COUNT_HW_CACHE_OP_MAX : Nat := 3
def PERF_COUNT_HW_CACHE_RESULT_MAX : Nat := 2
def HW_OP_UNSUPPORTED : Nat := 0xFFFF
def CACHE_OP_UNSUPPORTED : Nat := 0xFFFF

/-- `armpmu_map_cache_event`: decode the three 8-bit sub-fields of
`config` (type from byte 0, operation from byte 1, result from byte 2),
bound-check each, then look the triple up in the externally supplied
three-dimensional table; a missing table or a sentinel entry is
`-ENOENT`, an out-of-bound sub-field is `-EINVAL`. -/
def armpmu_map_cache_event (cache_map : Option (Nat → Nat → Nat → Nat))
    (config : Nat) : Int :=
  let cache_type := (config >>> 0) &&& 0xff
  if PERF_COUNT_HW_CACHE_MAX ≤ cache_type then -EINVAL
  else
    let cache_op := (config >>> 8) &&& 0xff
    if PERF_COUNT_HW_CACHE_OP_MAX ≤ cache_op then -EINVAL
    else
      let cache_result := (config >>> 16) &&& 0xff
      if PERF_COUNT_HW_CACHE_RESULT_MAX ≤ cache_result then -EINVAL
      else
        match cache_map with
        | none => -ENOENT
        | some cm =>
            let ret := cm cache_type cache_op cache_result
            if ret = CACHE_OP_UNSUPPORTED then -ENOENT else toS32 ret

/-- `armpmu_map_hw_event`: bound-check `config` against the generic
hardware-event enumeration and look it up in the externally supplied
table. -/
def armpmu_map_hw_event (event_map : Option (Nat → Nat)) (config : Nat) : Int :=
  if PERF_COUNT_HW_MAX ≤ config then -EINVAL
  else
    match event_map with
    | none => -ENOENT
    | some m =>
        let mapping := m config
        if mapping = HW_OP_UNSUPPORTED then -ENOENT else toS32 mapping

/-- `armpmu_map_raw_event`: `(int)(config & raw_event_mask)`, no
validation beyond the masking. -/
def armpmu_map_raw_event (raw_event_mask config : Nat) : Int :=
  toS32 (config &&& raw_event_mask)

/-! ## SubscriptionLifecycle: `armpmu_event_init` (admission) -/

/-- The facets of a subscription request that `armpmu_event_init` and
`__hw_perf_event_init` inspect. -/
structure InitEvent where
  cpu : Int
  branch_stack : Bool
  exclude_idle : Bool
  exclude_user : Bool
  exclude_kernel : Bool
  exclude_hv : Bool
  is_sampling : Bool
  leader_is_self : Bool
deriving DecidableEq, Repr

/-- The bank-supplied environment of admission: the supported-core test,
the `map_event` resolver, the optional `set_event_filter` capability
(returning the C int; nonzero means the filter request was not handled)
and the outcome of `validate_group` for this event's group. -/
structure InitEnv where
  supported : Int → Bool
  mapEvent : InitEvent → Int
  setFilter : Option (InitEvent → Int)
  groupOk : Bool

/-- `event_requires_mode_exclusion`. -/
def event_requires_mode_exclusion (e : InitEvent) : Bool :=
  e.exclude_idle || e.exclude_user || e.exclude_kernel || e.exclude_hv

/-- The admission status computed by `__hw_perf_event_init` (the
hardware-state writes — `hwc->idx = -1`, config base, default period —
are not observable through the claims and are omitted; only the returned
status is modelled). -/
def hw_perf_event_init_status (env : InitEnv) (e : InitEvent) : Int :=
  let mapping := env.mapEvent e
  let filterUnhandled : Bool :=
    match env.setFilter with
    | none => true
    | some f => decide (f e ≠ 0)
  if mapping < 0 then mapping
  else if filterUnhandled = true ∧ event_requires_mode_exclusion e = true then
    -EOPNOTSUPP
  else if e.leader_is_self = false ∧ env.groupOk = false then -EINVAL
  else 0

/-- `armpmu_event_init`: reject CPU-affine requests for cores of a
different class (`-ENOENT`), reject taken-branch-stack sampling
(`-EOPNOTSUPP`), reject unmapped events (`-ENOENT`), else run
`__hw_perf_event_init`. -/
def armpmu_event_init (env : InitEnv) (e : InitEvent) : Int :=
  if e.cpu ≠ -1 ∧ env.supported e.cpu = false then -ENOENT
  else if e.branch_stack = true then -EOPNOTSUPP
  else if env.mapEvent e = -ENOENT then -ENOENT
  else hw_perf_event_init_status env e

/-! ## InterruptRouter: `armpmu_request_irq` -/

/-- The bank-wide operating state (`armpmu->pmu_state`). -/
inductive PmuOpState where
  | off
  | goingDown
  | running
deriving DecidableEq, Repr

/-- The interrupt-related state of a bank that `armpmu_request_irq`
reads and writes: the recorded shared (per-cpu) line, the set of cores
with an active line, and the operating state. -/
structure IrqBankState where
  percpu_irq : Int
  active_irqs : Finset Nat
  pmu_state : PmuOpState
deriving DecidableEq

/-- The environment of one `armpmu_request_irq` call: the per-core line
table (`hw_events->irq`), the shared-line predicate (`irq_is_percpu`),
and the results the external interrupt layer returns for
`request_percpu_irq`, `irq_force_affinity` and `request_irq`
(0 = success, negative errno = failure). -/
structure IrqEnv where
  cpuIrq : Nat → Int
  isPercpu : Int → Bool
  percpuReqErr : Int
  forceAffErr : Int
  reqErr : Int
  numPossibleCpus : Nat

/-- `cpumask_first` over the active-core set. -/
def cpumask_first (s : Finset Nat) : Nat :=
  if h : s.Nonempty then s.min' h else 0

/-- `armpmu_request_irq`.  Mirrors the source exactly: in the
first-shared-request branch `armpmu->percpu_irq` is assigned before the
error test; every failure path (`err_out`) reports the error; success
sets the operating state to RUNNING and marks the core active. -/
def armpmu_request_irq (env : IrqEnv) (st : IrqBankState) (cpu : Nat) :
    Int × IrqBankState :=
  let irq := env.cpuIrq cpu
  if irq = 0 then (0, st)
  else
    let step : Int × IrqBankState :=
      if env.isPercpu irq = true then
        if st.active_irqs = ∅ then
          (env.percpuReqErr, { st with percpu_irq := irq })
        else
          let other_irq := env.cpuIrq (cpumask_first st.active_irqs)
          if irq ≠ other_irq then (-EINVAL, st) else (0, st)
      else
        if env.forceAffErr ≠ 0 ∧ 1 < env.numPossibleCpus then (env.forceAffErr, st)
        else (env.reqErr, st)
    if step.1 ≠ 0 then step
    else
      (0, { step.2 with
              pmu_state := .running,
              active_irqs := insert cpu step.2.active_irqs })

/-! ## Legacy singleton: `__oprofile_cpu_pmu`, `armpmu_register` -/

/-- The facets of a bank the legacy queries expose. -/
structure OProfileBank where
  name : String
  num_events : Nat
deriving DecidableEq, Repr

/-- One registration attempt: the bank plus the statuses the two
fallible sub-steps (`cpu_pmu_init`, `perf_pmu_register`) return. -/
structure RegAttempt where
  bank : OProfileBank
  cpuPmuInitErr : Int
  perfRegErr : Int
deriving DecidableEq, Repr

/-- `armpmu_register` acting on the `__oprofile_cpu_pmu` singleton: on
any sub-step failure the error is returned and the singleton is
untouched; on success the singleton is set only if it was not already
set. -/
def armpmu_register (g : Option OProfileBank) (a : RegAttempt) :
    Int × Option OProfileBank :=
  if a.cpuPmuInitErr ≠ 0 then (a.cpuPmuInitErr, g)
  else if a.perfRegErr ≠ 0 then (a.perfRegErr, g)
  else
    (0, match g with
        | none => some a.bank
        | some b => some b)

/-- A sequence of registration attempts threaded through the singleton. -/
def registerAll (g : Option OProfileBank) : List RegAttempt → Option OProfileBank
  | [] => g
  | a :: rest => registerAll (armpmu_register g a).2 rest

/-- `perf_pmu_name` (NULL is `none`). -/
def perf_pmu_name (g : Option OProfileBank) : Option String :=
  g.map OProfileBank.name

/-- `perf_num_counters`. -/
def perf_num_counters (g : Option OProfileBank) : Int :=
  match g with
  | none => 0
  | some b => (b.num_events : Int)

/-- A registration attempt that succeeds end-to-end. -/
def regSucceeds (a : RegAttempt) : Bool :=
  decide (a.cpuPmuInitErr = 0) && decide (a.perfRegErr = 0)

/-! ## Observers used to state the period-arming theorems -/

/-- The reconciled countdown (the specification's reconciliation rule):
reset to one period if drifted to or past `-period`, else add one period
if at or past zero, else unchanged. -/
def reconciledLeft (L P : Int) : Int :=
  if L ≤ -P then P else if L ≤ 0 then L + P else L

/-- The clamped countdown actually programmed (the specification's
`clamped_left = min(left, max_period >> 1)`). -/
def clampedLeft (mp : Nat) (L P : Int) : Int :=
  min (reconciledLeft L P) ((mp >>> 1 : Nat) : Int)

/-! ## Concrete instances used by witnesses and counterexamples -/

/-- A subscription with period 1000 about to be armed (max_period is
taken as `0xFFFFFFFF` at the call sites below). -/
def periodCounterEx : Counter :=
  { event := { hw := { idx := -1, config_base := 0, state := 0, prev_count := 0,
                       period_left := 1000, sample_period := 1000, last_period := 1000 },
               count := 0, state := 1 },
    hwval := 0, enabled := false }

/-- An already-stopped subscription (PERF_HES_STOPPED set). -/
def cStopped : Counter :=
  { event := { hw := { idx := 0, config_base := 0, state := 3, prev_count := 500,
                       period_left := 700, sample_period := 1000, last_period := 1000 },
               count := 42, state := 1 },
    hwval := 500, enabled := false }

/-- An armed, enabled, scheduler-ACTIVE subscription whose hardware
counter has not moved since arming (`hwval = prev_count & 0xffffffff`). -/
def cActive : Counter :=
  { event := { hw := { idx := 0, config_base := 0, state := 0, prev_count := 500,
                       period_left := 700, sample_period := 1000, last_period := 1000 },
               count := 42, state := 1 },
    hwval := 500, enabled := true }

/-- An environment for one shared-per-core interrupt line (id 7) whose
`request_percpu_irq` fails with -12. -/
def irqEnvEx : IrqEnv :=
  { cpuIrq := fun _ => 7, isPercpu := fun _ => true,
    percpuReqErr := -12, forceAffErr := 0, reqErr := 0, numPossibleCpus := 4 }

/-- A bank before any interrupt has been requested. -/
def irqStEx : IrqBankState :=
  { percpu_irq := -1, active_irqs := ∅, pmu_state := .off }

/-- An admission environment: only core 0 supported, every event maps to
hardware code 0, no filter capability, group validation succeeds. -/
def initEnvEx : InitEnv :=
  { supported := fun c => decide (c = 0), mapEvent := fun _ => 0,
    setFilter := none, groupOk := true }

/-- A process-following (cpu = -1) branch-stack request. -/
def initEvBranch : InitEvent :=
  { cpu := -1, branch_stack := true, exclude_idle := false, exclude_user := false,
    exclude_kernel := false, exclude_hv := false, is_sampling := false,
    leader_is_self := true }

/-- A branch-stack request affine to the unsupported core 1. -/
def initEvBranchCpu1 : InitEvent :=
  { cpu := 1, branch_stack := true, exclude_idle := false, exclude_user := false,
    exclude_kernel := false, exclude_hv := false, is_sampling := false,
    leader_is_self := true }

/-- Two registration attempts that both succeed. -/
def regA : RegAttempt := ⟨⟨"pmu-a", 4⟩, 0, 0⟩

def regB : RegAttempt := ⟨⟨"pmu-b", 6⟩, 0, 0⟩

/-- A software-only group leader. -/
def gLeaderSw : GEvent := ⟨true, false, 0, false⟩

/-- A hardware member of this bank in scheduler state EXIT (-3) with
`enable_on_exec` set. -/
def gExiting : GEvent := ⟨false, true, -3, true⟩

/-- A hardware member of this bank in scheduler state INACTIVE — it
competes for a slot. -/
def gInactive : GEvent := ⟨false, true, 0, false⟩

/-- The first-free selection strategy on a 3-slot bank. -/
def strat3 : GStrategy := fun m _ =>
  if 0 ∉ m then some 0 else if 1 ∉ m then some 1 else if 2 ∉ m then some 2 else none

/-- Two cores sharing a per-core line type but configured with different
line ids (7 on core 0, 8 on core 1). -/
def irqEnvMismatch : IrqEnv :=
  { cpuIrq := fun c => if c = 0 then 7 else 8, isPercpu := fun _ => true,
    percpuReqErr := 0, forceAffErr := 0, reqErr := 0, numPossibleCpus := 2 }

/-- A bank whose shared line is already active on core 1. -/
def irqStActive1 : IrqBankState :=
  { percpu_irq := 8, active_irqs := {1}, pmu_state := .running }

/-! ## Theorems -/

/-- **C1**: `armpmu_event_update` reads the raw hardware value, computes
`delta = (new_raw - prev_count) & max_period` (a `Nat`, hence never
negative, which is how unsigned wraparound subtraction handles the
counter wrapping past `max_period`), replaces `prev_count` with the
observed raw value through the compare-and-retry loop (retrying whenever
a concurrent context changed `prev_count` between the read and the
cmpxchg), adds `delta` to the running total, subtracts `delta` from
`period_left`, and returns the observed raw value.  The function is
total (never fails) for every interference schedule. -/
theorem armpmu_event_update_characterization
    (mp finalRaw : Nat) (rounds : List (Nat × Nat)) (e : PerfEvent) :
    armpmu_event_update_go mp finalRaw rounds e =
      (let ob := updObserved finalRaw rounds e.hw.prev_count
       let delta := sub64 ob.2 ob.1 &&& mp
       (ob.2,
        { e with
            hw := { e.hw with
              prev_count := ob.2,
              period_left := wrap64 (e.hw.period_left - (delta : Int)) },
            count := (e.count + delta) % 2 ^ 64 })) ∧
    (0 : Int) ≤
      ((sub64 (updObserved finalRaw rounds e.hw.prev_count).2
              (updObserved finalRaw rounds e.hw.prev_count).1 &&& mp : Nat) : Int) := by
  refine ⟨?_, Int.ofNat_nonneg _⟩
  induction rounds generalizing e with
  | nil =>
      simp [armpmu_event_update_go, updObserved, perfEventApplyDelta]
  | cons r rest ih =>
      obtain ⟨raw, w⟩ := r
      simp only [armpmu_event_update_go, updObserved]
      by_cases h : w = e.hw.prev_count
      · simp [h, perfEventApplyDelta]
      · simp [h, ih]

/-- Helper: a state that carries both lifecycle flags keeps the STOPPED
bit visible to `armpmu_stop`'s guard. -/
theorem or_three_and_one_ne_zero (s : Nat) :
    (s ||| (PERF_HES_STOPPED ||| PERF_HES_UPTODATE)) &&& PERF_HES_STOPPED ≠ 0 := by
  have h : (s ||| 3) % 2 = 1 := Nat.or_mod_two_eq_one.mpr (Or.inr (by norm_num))
  have e3 : PERF_HES_STOPPED ||| PERF_HES_UPTODATE = 3 := rfl
  rw [e3, PERF_HES_STOPPED, Nat.and_one_is_mod]
  omega

/-- **C7**: `armpmu_stop` on an already-stopped subscription is a no-op,
and `armpmu_stop` is idempotent: stopping twice in a row yields exactly
the same final state (running total and lifecycle flags included) as
stopping once. -/
theorem armpmu_stop_idempotent :
    (∀ (mp flags : Nat) (c : Counter),
        c.event.hw.state &&& PERF_HES_STOPPED ≠ 0 → armpmu_stop mp flags c = c) ∧
    (∀ (mp f1 f2 : Nat) (c : Counter),
        armpmu_stop mp f2 (armpmu_stop mp f1 c) = armpmu_stop mp f1 c) := by
  have noop : ∀ (mp flags : Nat) (c : Counter),
      c.event.hw.state &&& PERF_HES_STOPPED ≠ 0 → armpmu_stop mp flags c = c := by
    intro mp flags c h
    simp [armpmu_stop, h]
  refine ⟨noop, ?_⟩
  intro mp f1 f2 c
  by_cases h : c.event.hw.state &&& PERF_HES_STOPPED ≠ 0
  · rw [noop mp f1 c h]
    exact noop mp f2 c h
  · have hs : (armpmu_stop mp f1 c).event.hw.state &&& PERF_HES_STOPPED ≠ 0 := by
      simp only [armpmu_stop, if_neg h]
      exact or_three_and_one_ne_zero _
    exact noop mp f2 _ hs

/-- **C7 witness**: the no-op branch exercised on a concrete stopped
subscription. -/
theorem armpmu_stop_idempotent_witness :
    cStopped.event.hw.state &&& PERF_HES_STOPPED ≠ 0 ∧
      armpmu_stop 0xffffffff PERF_EF_UPDATE cStopped = cStopped :=
  ⟨by decide, armpmu_stop_idempotent.1 0xffffffff PERF_EF_UPDATE cStopped (by decide)⟩

/-- **C2 counterexample**: with `max_period = 0xFFFFFFFF`, `period = 1000`
and `period_left = 1000`, arming records
`prev_count = (u64)(-1000) = 2^64 - 1000` but programs the raw counter
with `(u64)(-1000) & 0xffffffff = 2^32 - 1000`; the recorded `prev_count`
is therefore *not* "that same programmed raw value" as the claim states
(they agree only modulo `2^32`). -/
theorem armpmu_event_set_period_prev_count_cex :
    (armpmu_event_set_period 0xffffffff periodCounterEx).2.event.hw.prev_count =
        2 ^ 64 - 1000 ∧
    (armpmu_event_set_period 0xffffffff periodCounterEx).2.hwval = 2 ^ 32 - 1000 ∧
    (armpmu_event_set_period 0xffffffff periodCounterEx).2.event.hw.prev_count ≠
        (armpmu_event_set_period 0xffffffff periodCounterEx).2.hwval := by
  refine ⟨by decide, by decide, by decide⟩

/-- **C4 counterexample**: a candidate of this bank in scheduler state
EXIT (-3) with `enable_on_exec` set is *always* admitted by the source's
`validate_event` (the `state < PERF_EVENT_STATE_OFF` test), even on a
bank with no free slot, whereas the claim's enumeration classifies it as
an ordinary member that must obtain a scratch slot and so predicts
rejection: the claimed iff-characterization is false at this input. -/
theorem validate_group_state_below_off_cex :
    validate_group (fun _ _ => none) gLeaderSw [] gExiting = 0 ∧
    validate_group_claimed (fun _ _ => none) gLeaderSw [] gExiting = -EINVAL := by
  refine ⟨by decide, by decide⟩

/-- **C6 counterexample**: when the shared per-core line is requested for
the first time and `request_percpu_irq` fails (here with -12), the
failure is reported but `armpmu->percpu_irq` — the recorded shared-line
id — has already been overwritten from -1 to the requested line 7, so
the bank's state is *not* left unchanged on this failure path. -/
theorem armpmu_request_irq_percpu_fail_cex :
    (armpmu_request_irq irqEnvEx irqStEx 0).1 = -12 ∧
    (armpmu_request_irq irqEnvEx irqStEx 0).2.percpu_irq = 7 ∧
    irqStEx.percpu_irq = -1 := by
  refine ⟨by decide, by decide, by decide⟩

/-- **C9 (amended)**: a branch-stack request that passes the CPU-class
check (process-following, or affine to a supported core) is rejected
with `-EOPNOTSUPP` for *every* mapper and group-validation outcome — the
rejection happens before the hardware code is resolved and before group
validation runs. -/
theorem armpmu_event_init_branch_stack_rejected
    (env : InitEnv) (e : InitEvent)
    (hbs : e.branch_stack = true)
    (hcpu : e.cpu = -1 ∨ env.supported e.cpu = true) :
    armpmu_event_init env e = -EOPNOTSUPP := by
  unfold armpmu_event_init
  rcases hcpu with h | h
  · simp [h, hbs]
  · simp [h, hbs]

/-- **C9 witness**: the amended theorem applied to a concrete
process-following branch-stack request. -/
theorem armpmu_event_init_branch_stack_rejected_witness :
    initEvBranch.branch_stack = true ∧
      armpmu_event_init initEnvEx initEvBranch = -EOPNOTSUPP :=
  ⟨rfl, armpmu_event_init_branch_stack_rejected initEnvEx initEvBranch rfl (Or.inl rfl)⟩

/-- **C9 counterexample**: a branch-stack request affine to a core the
bank does not support is rejected with `-ENOENT` (the CPU-class check
fires first), not `-EOPNOTSUPP` — so the claim's "for every subscription
request that asks for taken-branch-stack sampling" is false as stated. -/
theorem armpmu_event_init_branch_stack_cex :
    initEvBranchCpu1.branch_stack = true ∧
    armpmu_event_init initEnvEx initEvBranchCpu1 = -ENOENT ∧
    (-ENOENT : Int) ≠ -EOPNOTSUPP := by
  refine ⟨rfl, by decide, by decide⟩

/-- **C5**: `armpmu_add` returns `-ENOENT` (the code the spec labels
`NoSuchDevice`) without touching any state when the calling core is
outside the bank's supported mask, and when the slot-selection strategy
fails it propagates the strategy's error unchanged with the per-core
slot table and the event untouched. -/
theorem armpmu_add_rejects_and_propagates :
    (∀ (mp : Nat) (choose : SlotTable → Counter → Int) (flags : Nat)
        (st : SlotTable) (c : Counter),
        armpmu_add mp false choose flags st c = (-ENOENT, st, c)) ∧
    (∀ (mp : Nat) (choose : SlotTable → Counter → Int) (flags : Nat)
        (st : SlotTable) (c : Counter),
        choose st c < 0 →
        armpmu_add mp true choose flags st c = (choose st c, st, c)) := by
  constructor
  · intro mp choose flags st c
    simp [armpmu_add]
  · intro mp choose flags st c h
    simp [armpmu_add, h]

/-- **C5 witness**: a strategy failure (-5, i.e. `-EAGAIN`-style code)
propagated unchanged through `armpmu_add` on a concrete state. -/
theorem armpmu_add_rejects_and_propagates_witness :
    ((fun (_ : SlotTable) (_ : Counter) => (-5 : Int)) [] cStopped < 0) ∧
    armpmu_add 0xffffffff true (fun _ _ => (-5 : Int)) 0 [] cStopped =
      (-5, [], cStopped) :=
  ⟨by decide,
   armpmu_add_rejects_and_propagates.2 0xffffffff (fun _ _ => (-5 : Int)) 0 []
     cStopped (by decide)⟩

/-- Helper: once the `__oprofile_cpu_pmu` singleton is set, no later
registration changes it. -/
theorem registerAll_some (b : OProfileBank) (l : List RegAttempt) :
    registerAll (some b) l = some b := by
  induction l with
  | nil => rfl
  | cons a rest ih =>
      have h2 : (armpmu_register (some b) a).2 = some b := by
        unfold armpmu_register
        split_ifs <;> rfl
      rw [registerAll, h2, ih]

/-- **C10**: before any successful registration the legacy queries return
NULL and 0; the singleton is set exactly by the first end-to-end
successful registration, so after any sequence of attempts both legacy
queries report the first successfully registered bank's name and counter
count, unaffected by later registrations. -/
theorem oprofile_singleton_first_registration :
    (perf_pmu_name none = none ∧ perf_num_counters none = 0) ∧
    (∀ l : List RegAttempt,
        registerAll none l = (l.find? regSucceeds).map RegAttempt.bank) ∧
    (∀ (l : List RegAttempt) (a : RegAttempt),
        l.find? regSucceeds = some a →
        perf_pmu_name (registerAll none l) = some a.bank.name ∧
        perf_num_counters (registerAll none l) = (a.bank.num_events : Int)) := by
  have h2 : ∀ l : List RegAttempt,
      registerAll none l = (l.find? regSucceeds).map RegAttempt.bank := by
    intro l
    induction l with
    | nil => rfl
    | cons a rest ih =>
        by_cases h : regSucceeds a = true
        · have hs : a.cpuPmuInitErr = 0 ∧ a.perfRegErr = 0 := by
            have h' := h
            unfold regSucceeds at h'
            simpa using h'
          have hreg : (armpmu_register none a).2 = some a.bank := by
            unfold armpmu_register
            rw [if_neg (by simp [hs.1]), if_neg (by simp [hs.2])]
          rw [registerAll, hreg, registerAll_some, List.find?_cons_of_pos _ h,
            Option.map_some']
        · have hne : a.cpuPmuInitErr ≠ 0 ∨ a.perfRegErr ≠ 0 := by
            unfold regSucceeds at h
            simp only [Bool.and_eq_true, decide_eq_true_eq] at h
            tauto
          have hreg : (armpmu_register none a).2 = none := by
            unfold armpmu_register
            rcases hne with h1 | h1
            · rw [if_pos h1]
            · by_cases h2 : a.cpuPmuInitErr ≠ 0
              · rw [if_pos h2]
              · rw [if_neg h2, if_pos h1]
          rw [registerAll, hreg, ih, List.find?_cons_of_neg]
          simpa using h
  refine ⟨⟨rfl, rfl⟩, h2, ?_⟩
  intro l a h
  rw [h2, h]
  exact ⟨rfl, rfl⟩

/-- **C10 witness**: two successful registrations; both queries report
the first bank. -/
theorem oprofile_singleton_first_registration_witness :
    [regA, regB].find? regSucceeds = some regA ∧
    perf_pmu_name (registerAll none [regA, regB]) = some regA.bank.name ∧
    perf_num_counters (registerAll none [regA, regB]) = (regA.bank.num_events : Int) :=
  ⟨rfl,
   (oprofile_singleton_first_registration.2.2 [regA, regB] regA rfl).1,
   (oprofile_singleton_first_registration.2.2 [regA, regB] regA rfl).2⟩

/-- Helper: `(int)` of a value below `2^31` is the value itself. -/
theorem toS32_small {n : Nat} (h : n < 2 ^ 31) : toS32 n = (n : Int) := by
  have hlt : n < 2 ^ 32 := lt_trans h (by norm_num)
  rw [toS32, Nat.mod_eq_of_lt hlt, if_pos h]

/-- **C8**: cache-kind resolution decodes type from byte 0, operation
from byte 1 and result from byte 2 of `config` (`0x010203` decodes to
type 3, op 2, result 1), returns `-EINVAL` for any out-of-bound
sub-field, `-ENOENT` for a missing table or a sentinel entry, and
otherwise the table entry at the decoded triple; raw-kind resolution
returns `config & raw_mask` with no validation (`0xABCD & 0xFF = 0xCD`). -/
theorem armpmu_map_cache_raw_characterization :
    ((0x010203 >>> 0) &&& 0xff = 3 ∧ (0x010203 >>> 8) &&& 0xff = 2 ∧
        (0x010203 >>> 16) &&& 0xff = 1) ∧
    (∀ (cm : Option (Nat → Nat → Nat → Nat)) (config : Nat),
        (PERF_COUNT_HW_CACHE_MAX ≤ (config >>> 0) &&& 0xff ∨
          PERF_COUNT_HW_CACHE_OP_MAX ≤ (config >>> 8) &&& 0xff ∨
          PERF_COUNT_HW_CACHE_RESULT_MAX ≤ (config >>> 16) &&& 0xff) →
        armpmu_map_cache_event cm config = -EINVAL) ∧
    (∀ config : Nat,
        (config >>> 0) &&& 0xff < PERF_COUNT_HW_CACHE_MAX →
        (config >>> 8) &&& 0xff < PERF_COUNT_HW_CACHE_OP_MAX →
        (config >>> 16) &&& 0xff < PERF_COUNT_HW_CACHE_RESULT_MAX →
        armpmu_map_cache_event none config = -ENOENT) ∧
    (∀ (cm : Nat → Nat → Nat → Nat) (config : Nat),
        (config >>> 0) &&& 0xff < PERF_COUNT_HW_CACHE_MAX →
        (config >>> 8) &&& 0xff < PERF_COUNT_HW_CACHE_OP_MAX →
        (config >>> 16) &&& 0xff < PERF_COUNT_HW_CACHE_RESULT_MAX →
        cm ((config >>> 0) &&& 0xff) ((config >>> 8) &&& 0xff)
            ((config >>> 16) &&& 0xff) = CACHE_OP_UNSUPPORTED →
        armpmu_map_cache_event (some cm) config = -ENOENT) ∧
    (∀ (cm : Nat → Nat → Nat → Nat) (config : Nat),
        (config >>> 0) &&& 0xff < PERF_COUNT_HW_CACHE_MAX →
        (config >>> 8) &&& 0xff < PERF_COUNT_HW_CACHE_OP_MAX →
        (config >>> 16) &&& 0xff < PERF_COUNT_HW_CACHE_RESULT_MAX →
        cm ((config >>> 0) &&& 0xff) ((config >>> 8) &&& 0xff)
            ((config >>> 16) &&& 0xff) ≠ CACHE_OP_UNSUPPORTED →
        armpmu_map_cache_event (some cm) config =
          toS32 (cm ((config >>> 0) &&& 0xff) ((config >>> 8) &&& 0xff)
            ((config >>> 16) &&& 0xff))) ∧
    (∀ mask config : Nat, config &&& mask < 2 ^ 31 →
        armpmu_map_raw_event mask config = ((config &&& mask : Nat) : Int)) ∧
    armpmu_map_raw_event 0xFF 0xABCD = 0xCD := by
  refine ⟨by decide, ?_, ?_, ?_, ?_, ?_, by decide⟩
  · intro cm config hb
    cases cm with
    | none =>
        simp only [armpmu_map_cache_event]
        split_ifs <;> first | rfl | omega
    | some m =>
        simp only [armpmu_map_cache_event]
        split_ifs <;> first | rfl | omega
  · intro config h1 h2 h3
    simp only [armpmu_map_cache_event]
    split_ifs <;> first | rfl | omega
  · intro cm config h1 h2 h3 hs
    simp only [armpmu_map_cache_event]
    split_ifs <;> first | rfl | omega
  · intro cm config h1 h2 h3 hs
    simp only [armpmu_map_cache_event]
    split_ifs <;> first | rfl | omega
  · intro mask config h
    rw [armpmu_map_raw_event, toS32_small h]

/-- **C8 witness**: the in-bound branches exercised at the concrete
inputs named by the specification. -/
theorem armpmu_map_cache_raw_characterization_witness :
    ((0x010203 >>> 0) &&& 0xff < PERF_COUNT_HW_CACHE_MAX) ∧
    armpmu_map_cache_event none 0x010203 = -ENOENT ∧
    armpmu_map_cache_event (some (fun t o r => t * 100 + o * 10 + r)) 0x010203 = 321 ∧
    (0xABCD &&& 0xFF < 2 ^ 31) ∧
    armpmu_map_raw_event 0xFF 0xABCD = ((0xABCD &&& 0xFF : Nat) : Int) := by
  refine ⟨by decide, ?_, ?_, by decide, ?_⟩
  · exact armpmu_map_cache_raw_characterization.2.2.1 0x010203 (by decide) (by decide)
      (by decide)
  · rw [armpmu_map_cache_raw_characterization.2.2.2.2.1
      (fun t o r => t * 100 + o * 10 + r) 0x010203 (by decide) (by decide) (by decide)
      (by decide)]
    decide
  · exact armpmu_map_cache_raw_characterization.2.2.2.2.2.1 0xFF 0xABCD (by decide)

/-- **C6 (amended)**: a shared per-core line already active on another
core with a different line id fails with `-EINVAL`; on any failure the
operating state and the active-core set are unchanged and the error is
reported, and on every failure path except the first shared-line request
the whole bank state (recorded shared-line id included) is unchanged —
in that one path `percpu_irq` has already been recorded; only on success
(with a line configured) is the state set to RUNNING and the core marked
active, and a core with no line configured is a successful no-op. -/
theorem armpmu_request_irq_characterization :
    (∀ (env : IrqEnv) (st : IrqBankState) (cpu : Nat),
        env.cpuIrq cpu ≠ 0 →
        env.isPercpu (env.cpuIrq cpu) = true →
        st.active_irqs ≠ ∅ →
        env.cpuIrq cpu ≠ env.cpuIrq (cpumask_first st.active_irqs) →
        armpmu_request_irq env st cpu = (-EINVAL, st)) ∧
    (∀ (env : IrqEnv) (st : IrqBankState) (cpu : Nat),
        (armpmu_request_irq env st cpu).1 ≠ 0 →
        (armpmu_request_irq env st cpu).2.pmu_state = st.pmu_state ∧
        (armpmu_request_irq env st cpu).2.active_irqs = st.active_irqs) ∧
    (∀ (env : IrqEnv) (st : IrqBankState) (cpu : Nat),
        (armpmu_request_irq env st cpu).1 ≠ 0 →
        ¬(env.isPercpu (env.cpuIrq cpu) = true ∧ st.active_irqs = ∅) →
        (armpmu_request_irq env st cpu).2 = st) ∧
    (∀ (env : IrqEnv) (st : IrqBankState) (cpu : Nat),
        env.cpuIrq cpu ≠ 0 →
        (armpmu_request_irq env st cpu).1 = 0 →
        (armpmu_request_irq env st cpu).2.pmu_state = PmuOpState.running ∧
        cpu ∈ (armpmu_request_irq env st cpu).2.active_irqs) ∧
    (∀ (env : IrqEnv) (st : IrqBankState) (cpu : Nat),
        env.cpuIrq cpu = 0 → armpmu_request_irq env st cpu = (0, st)) := by
  refine ⟨?_, ?_, ?_, ?_, ?_⟩
  · intro env st cpu h0 hp hne hdiff
    simp only [armpmu_request_irq, if_neg h0, hp]
    rw [if_neg hne, if_pos hdiff]
    simp [EINVAL]
  · intro env st cpu
    simp only [armpmu_request_irq]
    split_ifs <;> simp_all
  · intro env st cpu
    simp only [armpmu_request_irq]
    split_ifs <;> simp_all
  · intro env st cpu h0
    simp only [armpmu_request_irq]
    split_ifs <;> simp_all
  · intro env st cpu h0
    simp [armpmu_request_irq, h0]

/-- **C6 witness**: the mismatched-shared-line rejection on a concrete
two-core configuration. -/
theorem armpmu_request_irq_characterization_witness :
    irqEnvMismatch.cpuIrq 0 ≠ 0 ∧
    irqEnvMismatch.isPercpu (irqEnvMismatch.cpuIrq 0) = true ∧
    irqStActive1.active_irqs ≠ ∅ ∧
    irqEnvMismatch.cpuIrq 0 ≠ irqEnvMismatch.cpuIrq (cpumask_first irqStActive1.active_irqs) ∧
    armpmu_request_irq irqEnvMismatch irqStActive1 0 = (-EINVAL, irqStActive1) :=
  ⟨by decide, by decide, by decide, by decide,
   armpmu_request_irq_characterization.1 irqEnvMismatch irqStActive1 0
     (by decide) (by decide) (by decide) (by decide)⟩

/-- Helper: `wrap64` is the identity on in-range signed values. -/
theorem wrap64_eq_self {x : Int} (h1 : -(2 ^ 63) ≤ x) (h2 : x < 2 ^ 63) :
    wrap64 x = x := by
  rw [wrap64, Int.emod_eq_of_lt (by omega) (by omega)]
  omega

/-- Helper: the source's unsigned clamp comparison computes the
specification's `min` for in-range positive countdowns. -/
theorem clamp_eq_min {x : Int} {h : Nat} (hx0 : 0 ≤ x) (hx : x < 2 ^ 63)
    (hh : (h : Int) < 2 ^ 63) :
    (if h < toU64 x then ((h : Nat) : Int) else x) = min x ((h : Nat) : Int) := by
  have ht : toU64 x = x.toNat := by
    rw [toU64]
    congr 1
    exact Int.emod_eq_of_lt hx0 (by omega)
  rw [ht, min_def]
  split_ifs <;> omega

/-- **C2 (amended)**: under a positive in-range period, arming reconciles
`period_left` exactly as claimed (reset + overflow if at or below
`-period`, add one period + overflow if at or below zero), the returned
flag is the overflow indication, the value programmed is clamped to at
most `max_period >> 1`, the raw counter is programmed with
`(u64)(-clamped_left) & 0xffffffff` (a fixed 32-bit mask in the source,
which coincides with `& max_period` for the 32-bit `max_period` this
driver uses), and `prev_count` is recorded as the *unmasked*
`(u64)(-clamped_left)` — equal to the programmed raw value modulo
`2^32`, not literally equal to it.  The running total is untouched. -/
theorem armpmu_event_set_period_characterization
    (mp : Nat) (c : Counter)
    (hmp : mp < 2 ^ 64)
    (hp : 0 < c.event.hw.sample_period)
    (hpb : c.event.hw.sample_period ≤ 2 ^ 62)
    (hl1 : -(2 ^ 62) ≤ c.event.hw.period_left)
    (hl2 : c.event.hw.period_left ≤ 2 ^ 62) :
    (armpmu_event_set_period mp c).1 = decide (c.event.hw.period_left ≤ 0) ∧
    (armpmu_event_set_period mp c).2.event.hw.period_left =
        reconciledLeft c.event.hw.period_left c.event.hw.sample_period ∧
    (armpmu_event_set_period mp c).2.event.hw.prev_count =
        toU64 (-(clampedLeft mp c.event.hw.period_left c.event.hw.sample_period)) ∧
    (armpmu_event_set_period mp c).2.hwval =
        toU64 (-(clampedLeft mp c.event.hw.period_left c.event.hw.sample_period)) &&&
          0xffffffff ∧
    (armpmu_event_set_period mp c).2.event.hw.prev_count &&& 0xffffffff =
        (armpmu_event_set_period mp c).2.hwval ∧
    clampedLeft mp c.event.hw.period_left c.event.hw.sample_period ≤
        ((mp >>> 1 : Nat) : Int) ∧
    (armpmu_event_set_period mp c).2.event.count = c.event.count := by
  have hhalf : ((mp >>> 1 : Nat) : Int) < 2 ^ 63 := by
    have hdiv : mp >>> 1 = mp / 2 := Nat.shiftRight_one mp
    have : mp >>> 1 < 2 ^ 63 := by omega
    exact_mod_cast this
  have key :
      (if (if c.event.hw.period_left ≤ -c.event.hw.sample_period
            then c.event.hw.sample_period else c.event.hw.period_left) ≤ 0
        then wrap64
          ((if c.event.hw.period_left ≤ -c.event.hw.sample_period
            then c.event.hw.sample_period else c.event.hw.period_left) +
            c.event.hw.sample_period)
        else (if c.event.hw.period_left ≤ -c.event.hw.sample_period
              then c.event.hw.sample_period else c.event.hw.period_left)) =
      reconciledLeft c.event.hw.period_left c.event.hw.sample_period := by
    rw [reconciledLeft]
    by_cases hb1 : c.event.hw.period_left ≤ -c.event.hw.sample_period
    · rw [if_pos hb1, if_pos hb1, if_neg (by omega)]
    · rw [if_neg hb1, if_neg hb1]
      by_cases hb2 : c.event.hw.period_left ≤ 0
      · rw [if_pos hb2, if_pos hb2, wrap64_eq_self (by omega) (by omega)]
      · rw [if_neg hb2, if_neg hb2]
  have hrpos : 0 < reconciledLeft c.event.hw.period_left c.event.hw.sample_period := by
    rw [reconciledLeft]
    split_ifs <;> omega
  have hrle : reconciledLeft c.event.hw.period_left c.event.hw.sample_period < 2 ^ 63 := by
    rw [reconciledLeft]
    split_ifs <;> omega
  have hclamp :
      (if mp >>> 1 <
          toU64 (reconciledLeft c.event.hw.period_left c.event.hw.sample_period)
        then ((mp >>> 1 : Nat) : Int)
        else reconciledLeft c.event.hw.period_left c.event.hw.sample_period) =
      clampedLeft mp c.event.hw.period_left c.event.hw.sample_period := by
    rw [clampedLeft]
    exact clamp_eq_min (le_of_lt hrpos) hrle hhalf
  refine ⟨?_, ?_, ?_, ?_, ?_, min_le_right _ _, ?_⟩
  · simp only [armpmu_event_set_period]
    rw [decide_eq_decide]
    by_cases hb1 : c.event.hw.period_left ≤ -c.event.hw.sample_period
    · simp only [if_pos hb1]
      constructor
      · intro
        omega
      · intro
        exact Or.inl hb1
    · simp only [if_neg hb1]
      constructor
      · intro h
        rcases h with h | h
        · omega
        · omega
      · intro h
        exact Or.inr h
  · simp only [armpmu_event_set_period]
    exact key
  · simp only [armpmu_event_set_period]
    rw [key, hclamp]
  · simp only [armpmu_event_set_period]
    rw [key, hclamp]
  · simp only [armpmu_event_set_period]
  · simp only [armpmu_event_set_period]

/-- **C2 witness**: the amended characterization applied at
`max_period = 0xFFFFFFFF`, `period = 1000`, `period_left = 1000`
(no overflow, no clamping; `prev_count = 2^64 - 1000`, programmed value
`2^32 - 1000`). -/
theorem armpmu_event_set_period_characterization_witness :
    (0 : Int) < periodCounterEx.event.hw.sample_period ∧
    (armpmu_event_set_period 0xffffffff periodCounterEx).1 = false ∧
    (armpmu_event_set_period 0xffffffff periodCounterEx).2.event.hw.period_left = 1000 ∧
    (armpmu_event_set_period 0xffffffff periodCounterEx).2.event.hw.prev_count &&&
        0xffffffff =
      (armpmu_event_set_period 0xffffffff periodCounterEx).2.hwval := by
  have h := armpmu_event_set_period_characterization 0xffffffff periodCounterEx
    (by decide) (by decide) (by decide) (by decide) (by decide)
  refine ⟨by decide, ?_, ?_, h.2.2.2.2.1⟩
  · rw [h.1]
    decide
  · rw [h.2.1]
    decide

/-- **C4 (amended)**: group validation succeeds iff every member
(leader, each sibling, then the candidate, in that order) validates
against the same scratch zero-initialised slot map, where a member
validates as follows: software-only members always validate; members of
a different bank fail; members of this bank that are in a scheduler
state below OFF (exiting/errored), or OFF without `enable_on_exec`,
always validate; every other member validates only if the selection
strategy finds a free scratch slot.  Consequently a group of four
slot-competing members on a three-slot bank is rejected as a whole; no
real per-core state is consulted or modified (the scratch map is the
only state `validate_group` threads). -/
theorem validate_group_characterization :
    (∀ (strat : GStrategy) (m : Finset Nat) (e : GEvent),
        e.software = true → validate_event strat m e = (true, m)) ∧
    (∀ (strat : GStrategy) (m : Finset Nat) (e : GEvent),
        e.software = false → e.samePmu = false →
        validate_event strat m e = (false, m)) ∧
    (∀ (strat : GStrategy) (m : Finset Nat) (e : GEvent),
        e.software = false → e.samePmu = true →
        (e.state < PERF_EVENT_STATE_OFF ∨
          (e.state = PERF_EVENT_STATE_OFF ∧ e.enable_on_exec = false)) →
        validate_event strat m e = (true, m)) ∧
    (∀ (strat : GStrategy) (m : Finset Nat) (e : GEvent),
        e.software = false → e.samePmu = true →
        PERF_EVENT_STATE_OFF ≤ e.state →
        (e.state = PERF_EVENT_STATE_OFF → e.enable_on_exec = true) →
        validate_event strat m e =
          (match strat m e with
           | some i => (true, insert i m)
           | none => (false, m))) ∧
    (∀ (strat : GStrategy) (leader : GEvent) (siblings : List GEvent) (e : GEvent),
        validate_group strat leader siblings e = 0 ↔
        (validate_list strat (leader :: (siblings ++ [e])) ∅).1 = true) ∧
    (∀ strat : GStrategy,
        (∀ (m : Finset Nat) (g : GEvent) (i : Nat),
            strat m g = some i → i < 3 ∧ i ∉ m) →
        ∀ l s1 s2 e : GEvent,
          needsScratchSlot l → needsScratchSlot s1 → needsScratchSlot s2 →
          needsScratchSlot e →
          validate_group strat l [s1, s2] e = -EINVAL) := by
  refine ⟨?_, ?_, ?_, ?_, ?_, ?_⟩
  · intro strat m e h
    simp [validate_event, h]
  · intro strat m e hsw hpmu
    simp [validate_event, hsw, hpmu]
  · intro strat m e hsw hpmu hcase
    rcases hcase with h | h
    · simp [validate_event, hsw, hpmu, h]
    · have hns : ¬ e.state < PERF_EVENT_STATE_OFF := by
        rw [h.1]
        exact lt_irrefl _
      simp [validate_event, hsw, hpmu, hns, h.1, h.2]
  · intro strat m e hsw hpmu h1 h2
    have hns : ¬ e.state < PERF_EVENT_STATE_OFF := not_lt.mpr h1
    have hn4 : ¬ (e.state = PERF_EVENT_STATE_OFF ∧ e.enable_on_exec = false) := by
      rintro ⟨ha, hb⟩
      rw [h2 ha] at hb
      cases hb
    simp [validate_event, hsw, hpmu, hns, hn4]
  · intro strat leader siblings e
    rw [validate_group]
    split_ifs with h
    · simp [h]
    · simp only [EINVAL]
      constructor
      · intro hc
        omega
      · intro hc
        exact absurd hc h
  · intro strat hwf l s1 s2 e hl hs1 hs2 he
    have step : ∀ (g : GEvent) (m : Finset Nat), needsScratchSlot g →
        validate_event strat m g = (false, m) ∨
        ∃ i, i < 3 ∧ i ∉ m ∧ validate_event strat m g = (true, insert i m) := by
      intro g m hg
      obtain ⟨hsw, hpmu, h1, h2⟩ := hg
      have hns : ¬ g.state < PERF_EVENT_STATE_OFF := not_lt.mpr h1
      have hn4 : ¬ (g.state = PERF_EVENT_STATE_OFF ∧ g.enable_on_exec = false) := by
        rintro ⟨ha, hb⟩
        rw [h2 ha] at hb
        cases hb
      cases hstrat : strat m g with
      | none =>
          left
          simp [validate_event, hsw, hpmu, hns, hn4, hstrat]
      | some i =>
          right
          obtain ⟨hi3, him⟩ := hwf m g i hstrat
          exact ⟨i, hi3, him, by simp [validate_event, hsw, hpmu, hns, hn4, hstrat]⟩
    have needy : ∀ (gs : List GEvent) (m : Finset Nat),
        (∀ g ∈ gs, needsScratchSlot g) → m ⊆ Finset.range 3 →
        3 < m.card + gs.length → (validate_list strat gs m).1 = false := by
      intro gs
      induction gs with
      | nil =>
          intro m hall hsub hcard
          have := Finset.card_le_card hsub
          simp only [Finset.card_range] at this
          simp only [List.length_nil] at hcard
          omega
      | cons g rest ih =>
          intro m hall hsub hcard
          rcases step g m (hall g (List.mem_cons_self g rest)) with h | ⟨i, hi3, him, h⟩
          · simp [validate_list, h]
          · simp only [validate_list, h]
            apply ih
            · intro g' hg'
              exact hall g' (List.mem_cons_of_mem g hg')
            · intro x hx
              rcases Finset.mem_insert.mp hx with rfl | hx'
              · exact Finset.mem_range.mpr hi3
              · exact hsub hx'
            · rw [Finset.card_insert_of_not_mem him]
              simp only [List.length_cons] at hcard ⊢
              omega
    rw [validate_group, if_neg]
    intro hc
    have hfalse : (validate_list strat (l :: ([s1, s2] ++ [e])) ∅).1 = false := by
      apply needy
      · intro g hg
        simp only [List.cons_append, List.nil_append, List.mem_cons,
          List.mem_singleton] at hg
        rcases hg with rfl | rfl | rfl | rfl | hg
        · exact hl
        · exact hs1
        · exact hs2
        · exact he
        · exact absurd hg (List.not_mem_nil g)
      · exact Finset.empty_subset _
      · simp
    rw [hc] at hfalse
    cases hfalse

/-- **C4 witness**: the pigeonhole rejection with the first-free strategy
on three slots and four INACTIVE hardware members of this bank. -/
theorem validate_group_characterization_witness :
    needsScratchSlot gInactive ∧
    validate_group strat3 gInactive [gInactive, gInactive] gInactive = -EINVAL := by
  have hwf : ∀ (m : Finset Nat) (g : GEvent) (i : Nat),
      strat3 m g = some i → i < 3 ∧ i ∉ m := by
    intro m g i h
    unfold strat3 at h
    by_cases h0 : 0 ∉ m
    · rw [if_pos h0] at h
      simp only [Option.some.injEq] at h
      subst h
      exact ⟨by omega, h0⟩
    · rw [if_neg h0] at h
      by_cases h1 : 1 ∉ m
      · rw [if_pos h1] at h
        simp only [Option.some.injEq] at h
        subst h
        exact ⟨by omega, h1⟩
      · rw [if_neg h1] at h
        by_cases h2 : 2 ∉ m
        · rw [if_pos h2] at h
          simp only [Option.some.injEq] at h
          subst h
          exact ⟨by omega, h2⟩
        · rw [if_neg h2] at h
          cases h
  have hneed : needsScratchSlot gInactive := by
    refine ⟨rfl, rfl, by decide, ?_⟩
    intro h
    cases h
  exact ⟨hneed,
    validate_group_characterization.2.2.2.2.2 strat3 hwf gInactive gInactive
      gInactive gInactive hneed hneed hneed hneed⟩

/-- Helper: the wraparound delta of an update that reads back exactly the
32-bit-truncated image of `prev_count` is zero under any
power-of-two-minus-one `max_period` of width at most 32 — this is why a
synchronous stop+update right after arming leaves the total unchanged. -/
theorem delta_zero (w prev : Nat) (hw : w ≤ 32) :
    sub64 (prev &&& 0xffffffff) prev &&& (2 ^ w - 1) = 0 := by
  have hmask : (0xffffffff : Nat) = 2 ^ 32 - 1 := by norm_num
  have ha : prev &&& 0xffffffff = prev % 2 ^ 32 := by
    rw [hmask, Nat.and_pow_two_sub_one_eq_mod]
  rw [Nat.and_pow_two_sub_one_eq_mod, ha, sub64]
  have h1 : prev % 2 ^ 32 % 2 ^ 64 = prev % 2 ^ 32 := by
    have : prev % 2 ^ 32 < 2 ^ 32 := Nat.mod_lt _ (by norm_num)
    exact Nat.mod_eq_of_lt (by omega)
  rw [h1]
  have hq : prev % 2 ^ 64 % 2 ^ 32 = prev % 2 ^ 32 :=
    Nat.mod_mod_of_dvd prev (pow_dvd_pow 2 (by norm_num))
  have hdvd32 : (2 ^ 32 : Nat) ∣ (prev % 2 ^ 32 + (2 ^ 64 - prev % 2 ^ 64)) % 2 ^ 64 := by
    rw [Nat.dvd_mod_iff (pow_dvd_pow 2 (by norm_num))]
    obtain ⟨k, hk⟩ : ∃ k, prev % 2 ^ 64 = 2 ^ 32 * k + prev % 2 ^ 32 := by
      refine ⟨prev % 2 ^ 64 / 2 ^ 32, ?_⟩
      conv_lhs => rw [← Nat.div_add_mod (prev % 2 ^ 64) (2 ^ 32)]
      rw [hq]
    have hle : prev % 2 ^ 64 < 2 ^ 64 := Nat.mod_lt _ (by norm_num)
    rw [hk]
    have heq : prev % 2 ^ 32 + (2 ^ 64 - (2 ^ 32 * k + prev % 2 ^ 32)) =
        2 ^ 64 - 2 ^ 32 * k := by omega
    rw [heq]
    exact Nat.dvd_sub' (pow_dvd_pow 2 (by norm_num)) (dvd_mul_right _ _)
  exact Nat.mod_eq_zero_of_dvd (dvd_trans (pow_dvd_pow 2 hw) hdvd32)

/-- Helper: stopping an armed (state 0), quiescent counter disables it,
sets STOPPED+UPTODATE, folds the zero delta into the bookkeeping and
leaves everything else in place. -/
theorem armpmu_stop_armed (w f : Nat) (hw : w ≤ 32) (c : Counter)
    (hst : c.event.hw.state = 0)
    (hna : c.hwval = c.event.hw.prev_count &&& 0xffffffff) :
    armpmu_stop (2 ^ w - 1) f c =
      { c with
          enabled := false,
          event := { c.event with
            count := c.event.count % 2 ^ 64,
            hw := { c.event.hw with
              state := PERF_HES_STOPPED ||| PERF_HES_UPTODATE,
              prev_count := c.hwval,
              period_left := wrap64 c.event.hw.period_left } } } := by
  have hz : sub64 c.hwval c.event.hw.prev_count &&& (2 ^ w - 1) = 0 := by
    rw [hna]
    exact delta_zero w _ hw
  have hcond : ¬ c.event.hw.state &&& PERF_HES_STOPPED ≠ 0 := by
    rw [hst]
    simp
  rw [armpmu_stop, if_neg hcond]
  simp only [armpmu_event_update, armpmu_event_update_go, perfEventApplyDelta, hz, hst]
  simp

/-- Helper: the per-slot power-management action never changes the
used-bit of a slot. -/
theorem pmSlotStep_fst (mp : Nat) (cmd : PmCmd) (s : Bool × Option Counter) :
    (pmSlotStep mp cmd s).1 = s.1 := by
  rcases s with ⟨used, ev⟩
  cases used <;> cases ev <;>
    simp only [pmSlotStep] <;>
    try rfl
  rename_i c
  by_cases hA : c.event.state = PERF_EVENT_STATE_ACTIVE
  · rw [if_pos hA]
    cases cmd <;> rfl
  · rw [if_neg hA]

/-- Helper: the slot table produced by `cpu_pm_pmu_setup` is the
independent per-slot map. -/
theorem cpu_pm_pmu_setup_fst (mp : Nat) (cmd : PmCmd) :
    ∀ (i : Nat) (st : SlotTable),
      (cpu_pm_pmu_setup mp cmd i st).1 = st.map (pmSlotStep mp cmd) := by
  intro i st
  induction st generalizing i with
  | nil => rfl
  | cons s rest ih =>
      rcases s with ⟨used, ev⟩
      cases used with
      | false =>
          cases ev <;> simp [cpu_pm_pmu_setup, pmSlotStep, ih]
      | true =>
          cases ev with
          | none => simp [cpu_pm_pmu_setup, pmSlotStep, ih]
          | some c =>
              by_cases hA : c.event.state = PERF_EVENT_STATE_ACTIVE
              · simp [cpu_pm_pmu_setup, hA, ih, pmSlotStep]
              · simp [cpu_pm_pmu_setup, hA, ih, pmSlotStep]

/-- Helper: the hook trace produced by `cpu_pm_pmu_setup` is exactly one
per-event hook for each active slot, in slot order. -/
theorem cpu_pm_pmu_setup_snd (mp : Nat) (cmd : PmCmd) :
    ∀ (i : Nat) (st : SlotTable),
      (cpu_pm_pmu_setup mp cmd i st).2 = (activeIdxs i st).map (pmHookFor cmd) := by
  intro i st
  induction st generalizing i with
  | nil => rfl
  | cons s rest ih =>
      rcases s with ⟨used, ev⟩
      cases used with
      | false =>
          cases ev <;> simp [cpu_pm_pmu_setup, activeIdxs, ih]
      | true =>
          cases ev with
          | none => simp [cpu_pm_pmu_setup, activeIdxs, ih]
          | some c =>
              by_cases hA : c.event.state = PERF_EVENT_STATE_ACTIVE
              · simp [cpu_pm_pmu_setup, activeIdxs, hA, ih]
              · simp [cpu_pm_pmu_setup, activeIdxs, hA, ih]

/-- Helper: the power-management per-slot pass does not change how many
slots are in use. -/
theorem bitmapWeight_map (mp : Nat) (cmd : PmCmd) (st : SlotTable) :
    bitmapWeight (st.map (pmSlotStep mp cmd)) = bitmapWeight st := by
  rw [bitmapWeight, bitmapWeight, List.countP_map]
  have hfun : ((fun s : Bool × Option Counter => s.1) ∘ pmSlotStep mp cmd) =
      fun s : Bool × Option Counter => s.1 := by
    funext s
    exact pmSlotStep_fst mp cmd s
  rw [hfun]

/-- **C3**: if a subscription is scheduler-ACTIVE in a used slot on a
supported core, is armed (no transient flags) and its counter has not
moved since arming, then on a low-power-entry transition the bank stop
hook is invoked first, followed by one stop+update per active slot in
slot order; immediately after entry the subscription is Stopped
(`PERF_HES_STOPPED | PERF_HES_UPTODATE`), disabled, with the running
total unchanged (up to date); and after the matching low-power-exit
transition the subscription is re-armed exactly as `armpmu_start` does —
transient flags cleared, slot enabled — with the running total still
unchanged by the round trip. -/
theorem cpu_pm_roundtrip_preserves_total
    (w : Nat) (hw : w ≤ 32) (hasReset : Bool) (st : SlotTable)
    (i : Nat) (c : Counter)
    (hslot : st[i]? = some (true, some c))
    (hact : c.event.state = PERF_EVENT_STATE_ACTIVE)
    (hhw : c.event.hw.state = 0)
    (hna : c.hwval = c.event.hw.prev_count &&& 0xffffffff)
    (hcnt : c.event.count < 2 ^ 64) :
    (cpu_pm_pmu_common (2 ^ w - 1) true hasReset PmCmd.pmEnter st).2.1 =
        PmHook.bankStop :: (activeIdxs 0 st).map (pmHookFor PmCmd.pmEnter) ∧
    ∃ c1,
      (cpu_pm_pmu_common (2 ^ w - 1) true hasReset PmCmd.pmEnter st).1[i]? =
          some (true, some c1) ∧
      c1.event.hw.state = (PERF_HES_STOPPED ||| PERF_HES_UPTODATE) ∧
      c1.enabled = false ∧
      c1.event.count = c.event.count ∧
      c1.event.state = PERF_EVENT_STATE_ACTIVE ∧
      (cpu_pm_pmu_common (2 ^ w - 1) true hasReset PmCmd.pmExit
          (cpu_pm_pmu_common (2 ^ w - 1) true hasReset PmCmd.pmEnter st).1).1[i]? =
        some (true, some (armpmu_start (2 ^ w - 1) PERF_EF_RELOAD c1)) ∧
      (armpmu_start (2 ^ w - 1) PERF_EF_RELOAD c1).event.hw.state = 0 ∧
      (armpmu_start (2 ^ w - 1) PERF_EF_RELOAD c1).enabled = true ∧
      (armpmu_start (2 ^ w - 1) PERF_EF_RELOAD c1).event.count = c.event.count := by
  have hweight : ¬ bitmapWeight st = 0 := by
    have hmem : (true, some c) ∈ st := List.getElem?_mem hslot
    have hpos : 0 < st.countP (fun s => s.1) :=
      List.countP_pos_iff.mpr ⟨(true, some c), hmem, rfl⟩
    rw [bitmapWeight]
    omega
  have hcommon1 : cpu_pm_pmu_common (2 ^ w - 1) true hasReset PmCmd.pmEnter st =
      (st.map (pmSlotStep (2 ^ w - 1) PmCmd.pmEnter),
       PmHook.bankStop :: (activeIdxs 0 st).map (pmHookFor PmCmd.pmEnter),
       NotifyRet.ok) := by
    simp [cpu_pm_pmu_common, hweight, cpu_pm_pmu_setup_fst, cpu_pm_pmu_setup_snd]
  have hc1 := armpmu_stop_armed w PERF_EF_UPDATE hw c hhw hna
  set c1 := armpmu_stop (2 ^ w - 1) PERF_EF_UPDATE c with hc1def
  have hc1state : c1.event.hw.state = (PERF_HES_STOPPED ||| PERF_HES_UPTODATE) := by
    rw [hc1]
  have hc1en : c1.enabled = false := by
    rw [hc1]
  have hc1count : c1.event.count = c.event.count := by
    rw [hc1]
    exact Nat.mod_eq_of_lt hcnt
  have hc1act : c1.event.state = PERF_EVENT_STATE_ACTIVE := by
    rw [hc1]
    exact hact
  have hstep1 : pmSlotStep (2 ^ w - 1) PmCmd.pmEnter (true, some c) =
      (true, some c1) := by
    simp [pmSlotStep, hact, hc1def]
  have hst1 : (cpu_pm_pmu_common (2 ^ w - 1) true hasReset PmCmd.pmEnter st).1[i]? =
      some (true, some c1) := by
    rw [hcommon1]
    simp only [List.getElem?_map, hslot, Option.map_some']
    rw [hstep1]
  have hweight1 :
      ¬ bitmapWeight (st.map (pmSlotStep (2 ^ w - 1) PmCmd.pmEnter)) = 0 := by
    rw [bitmapWeight_map]
    exact hweight
  have hcommon2 :
      (cpu_pm_pmu_common (2 ^ w - 1) true hasReset PmCmd.pmExit
        (st.map (pmSlotStep (2 ^ w - 1) PmCmd.pmEnter))).1 =
      (st.map (pmSlotStep (2 ^ w - 1) PmCmd.pmEnter)).map
        (pmSlotStep (2 ^ w - 1) PmCmd.pmExit) := by
    simp [cpu_pm_pmu_common, hweight1, cpu_pm_pmu_setup_fst]
  have hstep2 : pmSlotStep (2 ^ w - 1) PmCmd.pmExit (true, some c1) =
      (true, some (armpmu_start (2 ^ w - 1) PERF_EF_RELOAD c1)) := by
    simp [pmSlotStep, hc1act]
  have hst2 : (cpu_pm_pmu_common (2 ^ w - 1) true hasReset PmCmd.pmExit
      (cpu_pm_pmu_common (2 ^ w - 1) true hasReset PmCmd.pmEnter st).1).1[i]? =
      some (true, some (armpmu_start (2 ^ w - 1) PERF_EF_RELOAD c1)) := by
    rw [hcommon1]
    show (cpu_pm_pmu_common (2 ^ w - 1) true hasReset PmCmd.pmExit
        (st.map (pmSlotStep (2 ^ w - 1) PmCmd.pmEnter))).1[i]? =
      some (true, some (armpmu_start (2 ^ w - 1) PERF_EF_RELOAD c1))
    rw [hcommon2]
    simp only [List.getElem?_map, hslot, Option.map_some']
    rw [hstep1]
    rw [hstep2]
  refine ⟨by rw [hcommon1], c1, hst1, hc1state, hc1en, hc1count, hc1act, hst2, rfl, rfl, ?_⟩
  exact hc1count

/-- **C3 witness**: the round trip on a one-slot bank holding a single
armed active subscription with total 42 (`max_period = 2^32 - 1`). -/
theorem cpu_pm_roundtrip_preserves_total_witness :
    [(true, some cActive)][0]? = some (true, some cActive) ∧
    cActive.event.hw.state = 0 ∧
    (cpu_pm_pmu_common (2 ^ 32 - 1) true true PmCmd.pmEnter
        [(true, some cActive)]).2.1 =
      PmHook.bankStop ::
        (activeIdxs 0 [(true, some cActive)]).map (pmHookFor PmCmd.pmEnter) ∧
    ∃ c1,
      (cpu_pm_pmu_common (2 ^ 32 - 1) true true PmCmd.pmEnter
          [(true, some cActive)]).1[0]? = some (true, some c1) ∧
      c1.event.count = cActive.event.count ∧
      (armpmu_start (2 ^ 32 - 1) PERF_EF_RELOAD c1).event.count =
        cActive.event.count := by
  have h := cpu_pm_roundtrip_preserves_total 32 (by norm_num) true
    [(true, some cActive)] 0 cActive (by decide) rfl rfl (by decide) (by decide)
  obtain ⟨htr, c1, hs1, _, _, hcount, _, _, _, _, hcount2⟩ := h
  exact ⟨by decide, rfl, htr, c1, hs1, hcount, hcount2⟩
